import Mathlib

/-!
# Formal model of the yeetbot decision-and-pricing core

Shallow embedding of the core services of the repository:

* `PriceCalculator` (src/services/PriceCalculator.ts): price reconstruction
  and its inverse `timeUntilPrice`;
* `ProfitCalculator` (src/services/ProfitCalculator.ts): reward accrual and
  profitability metrics;
* `DecisionEngine` (src/services/DecisionEngine.ts): rule arbitration;
* `BGTEqualsCurrentPriceRule` (src/rules/BGTEqualsCurrentPriceRule.ts);
* the execution serializer of `BotRunner.executeYeet` (src/bot/BotRunner.ts).

Modelling conventions:

* JavaScript `bigint` values are modelled as `Int`; `bigint` division
  truncates toward zero, modelled with `Int.tdiv`.
* JavaScript `number` values that the code keeps integral (timestamps in
  milliseconds, second counts, priorities) are modelled as `Int`;
  `Math.floor` of a division is `Int.fdiv`.  `number` values that may be
  fractional (percentages, rates) are modelled as `ℚ`; the only claims that
  inspect such fields do so on branches where the value is an exact integer
  literal, so the difference between binary floating point and exact
  rationals is not observable there.
* A JavaScript `number` that may be `Infinity` or `-Infinity` is modelled
  by the inductive type `JsNum` below.
* `undefined`-able values are modelled with `Option`.
-/

namespace YeetBot

/-! ## PriceCalculator (src/services/PriceCalculator.ts) -/

/-- `AuctionParameters` of PriceCalculator.ts.  `auctionStartTime : Date` is
modelled by its epoch-millisecond value `auctionStartTimeMs`. -/
structure AuctionParameters where
  startPrice : Int
  minPrice : Int
  auctionDuration : Int
  auctionStartTimeMs : Int
deriving DecidableEq

/-- `PriceCalculator.calculateCurrentPrice`.  `now = Date.now()` is passed
explicitly as `nowMs`.  `Math.floor(timeElapsedMs / 1000)` is `Int.fdiv`;
the bigint division in the decay term is `Int.tdiv`. -/
def calculateCurrentPrice (params : AuctionParameters) (nowMs : Int) : Int :=
  let timeElapsedMs := nowMs - params.auctionStartTimeMs
  let timeElapsedSeconds := Int.fdiv timeElapsedMs 1000
  if timeElapsedSeconds ≤ 0 then
    params.startPrice
  else if timeElapsedSeconds ≥ params.auctionDuration then
    params.minPrice
  else
    let priceRange := params.startPrice - params.minPrice
    let priceDecay := Int.tdiv (priceRange * timeElapsedSeconds) params.auctionDuration
    let currentPrice := params.startPrice - priceDecay
    if currentPrice < params.minPrice then params.minPrice
    else if currentPrice > params.startPrice then params.startPrice
    else currentPrice

/-- `PriceCalculator.timeUntilPrice`.  `now = Date.now()` is passed
explicitly as `nowMs`. -/
def timeUntilPrice (params : AuctionParameters) (targetPrice : Int) (nowMs : Int) : Int :=
  if targetPrice ≥ params.startPrice then 0
  else if targetPrice ≤ params.minPrice then
    let auctionEndMs := params.auctionStartTimeMs + params.auctionDuration * 1000
    let timeRemaining := max 0 (auctionEndMs - nowMs)
    Int.fdiv timeRemaining 1000
  else
    let priceRange := params.startPrice - params.minPrice
    let targetDrop := params.startPrice - targetPrice
    let timeForTarget := Int.tdiv (targetDrop * params.auctionDuration) priceRange
    let targetTimeMs := params.auctionStartTimeMs + timeForTarget * 1000
    let timeRemaining := max 0 (targetTimeMs - nowMs)
    Int.fdiv timeRemaining 1000

/-- C4: for start ≥ floor ≥ 0 and positive duration, the reconstructed
price at any clock reading lies in the closed interval [floor, start]. -/
theorem calculateCurrentPrice_mem_Icc (params : AuctionParameters) (nowMs : Int)
    (hfloor : 0 ≤ params.minPrice) (horder : params.minPrice ≤ params.startPrice)
    (hdur : 0 < params.auctionDuration) :
    params.minPrice ≤ calculateCurrentPrice params nowMs ∧
      calculateCurrentPrice params nowMs ≤ params.startPrice := by
  unfold calculateCurrentPrice
  dsimp only
  split_ifs <;> omega

/-- Witness for C4 at concrete inputs. -/
theorem calculateCurrentPrice_mem_Icc_witness :
    (0 : Int) ≤ 3 ∧ (3 : Int) ≤ 10 ∧ (0 : Int) < 100 ∧
      ((3 : Int) ≤ calculateCurrentPrice ⟨10, 3, 100, 0⟩ 50000 ∧
        calculateCurrentPrice ⟨10, 3, 100, 0⟩ 50000 ≤ 10) :=
  ⟨by decide, by decide, by decide,
    calculateCurrentPrice_mem_Icc ⟨10, 3, 100, 0⟩ 50000 (by decide) (by decide) (by decide)⟩

/-- C5 counterexample: with start 10, floor 0, duration 100, auction start
at epoch 0 and elapsed time t = 5 s, the reconstructed price is still 10
(the decay term floors to zero), `timeUntilPrice` of that price is 0, and
|0 − (100 − 5)| = 95 > 1.  The claimed inverse-consistency bound fails. -/
theorem timeUntilPrice_inverse_counterexample :
    ¬ (|timeUntilPrice ⟨10, 0, 100, 0⟩
          (calculateCurrentPrice ⟨10, 0, 100, 0⟩ (0 + 1000 * 5)) (0 + 1000 * 5)
        - (100 - 5)| ≤ 1) := by decide

/-- C5 amended: at any whole-second elapsed time t ∈ [0, duration] (with
start > floor ≥ 0 and positive duration), `timeUntilPrice` applied at that
same clock reading to the price reconstructed there returns 0 — the current
price is already reached, so no wait remains; the quantity duration − t is
returned by `timeUntilPrice` for the floor price instead. -/
theorem timeUntilPrice_at_reconstructed (p : AuctionParameters) (t : Int)
    (hM : 0 ≤ p.minPrice) (hMS : p.minPrice < p.startPrice)
    (hD : 0 < p.auctionDuration) (ht0 : 0 ≤ t) (htD : t ≤ p.auctionDuration) :
    timeUntilPrice p (calculateCurrentPrice p (p.auctionStartTimeMs + 1000 * t))
        (p.auctionStartTimeMs + 1000 * t) = 0 ∧
      timeUntilPrice p p.minPrice (p.auctionStartTimeMs + 1000 * t)
        = p.auctionDuration - t := by
  obtain ⟨S, M, D, A⟩ := p
  simp only at hM hMS hD htD ⊢
  have h1000 : (1000 : Int) ≠ 0 := by norm_num
  have helap : Int.fdiv (A + 1000 * t - A) 1000 = t := by
    have h : A + 1000 * t - A = 1000 * t := by ring
    rw [h, Int.mul_fdiv_cancel_left _ h1000]
  constructor
  · -- timeUntilPrice at the reconstructed price is 0
    by_cases hz : t ≤ 0
    · have ht : t = 0 := le_antisymm hz ht0
      subst ht
      simp only [calculateCurrentPrice, helap, le_refl, if_pos]
      simp only [timeUntilPrice, ge_iff_le, le_refl, if_pos]
    · by_cases hend : D ≤ t
      · have ht : t = D := le_antisymm htD hend
        subst ht
        simp only [calculateCurrentPrice, helap]
        rw [if_neg (by omega), if_pos (by omega)]
        simp only [timeUntilPrice]
        rw [if_neg (by omega), if_pos (le_refl M)]
        have h2 : A + t * 1000 - (A + 1000 * t) = 0 := by ring
        rw [h2]
        decide
      · -- 0 < t < D: the linear-decay branch
        push_neg at hz hend
        have hR : (0 : Int) < S - M := by omega
        have hRt : (0 : Int) ≤ (S - M) * t := by positivity
        set d := Int.tdiv ((S - M) * t) D with hd
        have hde : d = (S - M) * t / D := Int.tdiv_eq_ediv hRt (le_of_lt hD)
        have hd0 : 0 ≤ d := Int.tdiv_nonneg hRt (le_of_lt hD)
        have hDd : d * D ≤ (S - M) * t := by
          rw [hde]; exact Int.ediv_mul_le _ (ne_of_gt hD)
        have hRtub : (S - M) * t ≤ (S - M) * D - (S - M) := by
          have := mul_le_mul_of_nonneg_left (by omega : t ≤ D - 1) (le_of_lt hR)
          nlinarith
        have hdR : d < S - M := by
          have hlt : d * D < (S - M) * D := by nlinarith
          exact lt_of_mul_lt_mul_right hlt (le_of_lt hD)
        have hprice : calculateCurrentPrice ⟨S, M, D, A⟩ (A + 1000 * t) = S - d := by
          simp only [calculateCurrentPrice, helap]
          rw [if_neg (by omega), if_neg (by omega), ← hd,
            if_neg (by omega), if_neg (by omega)]
        rw [hprice]
        rcases eq_or_lt_of_le hd0 with hdz0 | hdpos
        · rw [← hdz0]
          simp only [timeUntilPrice]
          rw [if_pos (by omega)]
        · have hd1 : 1 ≤ d := hdpos
          simp only [timeUntilPrice]
          rw [if_neg (by omega), if_neg (by omega)]
          have hdrop : S - (S - d) = d := by ring
          rw [hdrop]
          have hdD : (0 : Int) ≤ d * D := by positivity
          have ht2e : Int.tdiv (d * D) (S - M) = d * D / (S - M) :=
            Int.tdiv_eq_ediv hdD (le_of_lt hR)
          have ht2le : Int.tdiv (d * D) (S - M) ≤ t := by
            rw [ht2e]
            have h1 : d * D ≤ (S - M) * t := hDd
            have h2 : d * D / (S - M) ≤ (S - M) * t / (S - M) :=
              Int.ediv_le_ediv hR h1
            rwa [Int.mul_ediv_cancel_left _ (ne_of_gt hR)] at h2
          have hmax : max 0 (A + Int.tdiv (d * D) (S - M) * 1000 - (A + 1000 * t)) = 0 := by
            apply max_eq_left
            nlinarith [ht2le]
          rw [hmax]
          decide
  · -- timeUntilPrice at the floor price equals duration − t
    simp only [timeUntilPrice]
    rw [if_neg (by omega), if_pos (le_refl M)]
    have h2 : A + D * 1000 - (A + 1000 * t) = 1000 * (D - t) := by ring
    rw [h2]
    have h3 : max 0 (1000 * (D - t)) = 1000 * (D - t) := by
      apply max_eq_right; nlinarith
    rw [h3, Int.mul_fdiv_cancel_left _ h1000]

/-- Witness for C5 amended at concrete inputs. -/
theorem timeUntilPrice_at_reconstructed_witness :
    (0 : Int) ≤ 0 ∧ (0 : Int) < 10 ∧ (0 : Int) < 100 ∧ (0 : Int) ≤ 5 ∧ (5 : Int) ≤ 100 ∧
      (timeUntilPrice ⟨10, 0, 100, 0⟩
          (calculateCurrentPrice ⟨10, 0, 100, 0⟩ (0 + 1000 * 5)) (0 + 1000 * 5) = 0 ∧
        timeUntilPrice ⟨10, 0, 100, 0⟩ 0 (0 + 1000 * 5) = 100 - 5) :=
  ⟨by decide, by decide, by decide, by decide, by decide,
    timeUntilPrice_at_reconstructed ⟨10, 0, 100, 0⟩ 5
      (by decide) (by decide) (by decide) (by decide) (by decide)⟩

/-! ## ProfitCalculator (src/services/ProfitCalculator.ts) -/

/-- `Number.MAX_SAFE_INTEGER` (2^53 − 1). -/
def MAX_SAFE_NUMBER : Int := 9007199254740991

/-- `Number.MIN_SAFE_INTEGER` (−(2^53 − 1)). -/
def MIN_SAFE_NUMBER : Int := -9007199254740991

/-- `ProfitCalculator.safeToNumber`: BigInt → Number conversion with
clamping at the safe-integer bounds. -/
def safeToNumber (v : Int) : Int :=
  if v > MAX_SAFE_NUMBER then MAX_SAFE_NUMBER
  else if v < MIN_SAFE_NUMBER then MIN_SAFE_NUMBER
  else v

/-- A JavaScript `number` that may be `Infinity` or `-Infinity`.  Finite
values are carried as exact rationals. -/
inductive JsNum where
  | fin (q : ℚ)
  | posInf
  | negInf
deriving DecidableEq

/-- `ProfitCalculator.safeDivideToNumber`: bigint division (truncating
toward zero) returned as a Number, with `±Infinity` for a zero
denominator. -/
def safeDivideToNumber (numerator denominator : Int) : JsNum :=
  if denominator = 0 then
    if numerator > 0 then .posInf
    else if numerator < 0 then .negInf
    else .fin 0
  else .fin ((safeToNumber (Int.tdiv numerator denominator) : Int) : ℚ)

/-- `BGTRewards` of core/types.ts.  `timeElapsed` is a Number the code
keeps integral. -/
structure BGTRewards where
  bgtPerSecond : Int
  totalAccumulated : Int
  timeElapsed : Int
deriving DecidableEq

/-- `BASIS_POINTS` of core/constants.ts. -/
def BASIS_POINTS : Int := 10000

/-- `ProfitCalculator.calculateBGTRewards`.
`this.config.strategy.expectedAuctionDuration` is passed explicitly. -/
def calculateBGTRewards (bgtPerSecond leaderTimestamp currentTimestamp : Int)
    (expectedAuctionDuration : Int) : BGTRewards :=
  let timeElapsed := safeToNumber (currentTimestamp - leaderTimestamp)
  let auctionTime := min timeElapsed expectedAuctionDuration
  let totalSeconds := timeElapsed + auctionTime
  { bgtPerSecond := bgtPerSecond
    totalAccumulated := bgtPerSecond * totalSeconds
    timeElapsed := timeElapsed }

/-- `ProfitMetrics` of core/types.ts.  `timeToProfit` is the
threshold → seconds record, in threshold order. -/
structure ProfitMetrics where
  returnPercentage : ℚ
  profitPercentage : ℚ
  netProfit : Int
  breakEvenTime : JsNum
  timeToProfit : List (ℚ × JsNum)
deriving DecidableEq

/-- Subtraction of a Number constant from a possibly infinite Number. -/
def JsNum.sub (a : JsNum) (b : Int) : JsNum :=
  match a with
  | .fin q => .fin (q - b)
  | .posInf => .posInf
  | .negInf => .negInf

/-- `Math.max(0, ·)` on a possibly infinite Number. -/
def JsNum.max0 (a : JsNum) : JsNum :=
  match a with
  | .fin q => .fin (max 0 q)
  | .posInf => .posInf
  | .negInf => .fin 0

/-- `ProfitCalculator.timeToProfit`.  `Math.floor((1 + p/100) * BASIS_POINTS)`
is the rational floor. -/
def timeToProfit (currentPrice bgtPerSecond : Int) (targetProfitPercentage : ℚ)
    (expectedAuctionDuration : Int) : JsNum :=
  if bgtPerSecond = 0 then .posInf
  else if currentPrice = 0 then .fin 0
  else
    let requiredMultiplier : Int :=
      ⌊(1 + targetProfitPercentage / 100) * (BASIS_POINTS : ℚ)⌋
    let requiredBGT := Int.tdiv (currentPrice * requiredMultiplier) BASIS_POINTS
    let timeRequired := safeDivideToNumber requiredBGT bgtPerSecond
    let adjustedTime := timeRequired.sub expectedAuctionDuration
    adjustedTime.max0

/-- `ProfitCalculator.calculateProfitMetrics`.  The configured
`expectedAuctionDuration` and `profitThresholds` are passed explicitly. -/
def calculateProfitMetrics (currentPrice : Int) (bgtRewards : BGTRewards)
    (expectedAuctionDuration : Int) (profitThresholds : List ℚ) : ProfitMetrics :=
  let totalAccumulated := bgtRewards.totalAccumulated
  let netProfit := totalAccumulated - currentPrice
  let returnPercentage : ℚ :=
    if currentPrice > 0 then
      ((safeToNumber (Int.tdiv (totalAccumulated * BASIS_POINTS) currentPrice) : Int) : ℚ) / 100
    else 0
  let profitPercentage : ℚ :=
    if currentPrice > 0 then
      ((safeToNumber (Int.tdiv (netProfit * BASIS_POINTS) currentPrice) : Int) : ℚ) / 100
    else 0
  let breakEvenTime :=
    if bgtRewards.bgtPerSecond > 0 then
      safeDivideToNumber currentPrice bgtRewards.bgtPerSecond
    else .posInf
  let ttp := profitThresholds.map fun thr =>
    (thr, timeToProfit currentPrice bgtRewards.bgtPerSecond thr expectedAuctionDuration)
  { returnPercentage := returnPercentage
    profitPercentage := profitPercentage
    netProfit := netProfit
    breakEvenTime := breakEvenTime
    timeToProfit := ttp }

/-- C6 counterexample: with rate 1, lead start 0 and `now` = 2^53 (one past
`Number.MAX_SAFE_INTEGER`), `safeToNumber` clamps, so the returned
`timeElapsed` is 2^53 − 1 rather than `now − leadStartTime`, and
`totalAccrued` misses the claimed formula as well. -/
theorem calculateBGTRewards_counterexample :
    ¬ ((calculateBGTRewards 1 0 9007199254740992 60).timeElapsed
          = 9007199254740992 - 0 ∧
        (calculateBGTRewards 1 0 9007199254740992 60).totalAccumulated
          = 1 * ((9007199254740992 - 0) + min (9007199254740992 - 0) 60)) := by
  decide

/-- C6 amended: for non-negative rate, `now` not earlier than the lead
start, and elapsed/total second counts within the Number safe-integer range
(so that neither the `safeToNumber` clamp nor float rounding intervenes),
the calculator returns `elapsedSeconds = now − leadStartTime` and
`totalAccrued = rate * (elapsed + min(elapsed, expectedDecayDuration))`
in exact integer arithmetic. -/
theorem calculateBGTRewards_spec (bgtPerSecond leaderTimestamp currentTimestamp : Int)
    (expectedAuctionDuration : Int)
    (hrate : 0 ≤ bgtPerSecond) (hts : leaderTimestamp ≤ currentTimestamp)
    (hsafe : currentTimestamp - leaderTimestamp ≤ MAX_SAFE_NUMBER)
    (hsum : currentTimestamp - leaderTimestamp
        + min (currentTimestamp - leaderTimestamp) expectedAuctionDuration
          ≤ MAX_SAFE_NUMBER) :
    (calculateBGTRewards bgtPerSecond leaderTimestamp currentTimestamp
        expectedAuctionDuration).timeElapsed = currentTimestamp - leaderTimestamp ∧
      (calculateBGTRewards bgtPerSecond leaderTimestamp currentTimestamp
          expectedAuctionDuration).totalAccumulated
        = bgtPerSecond * ((currentTimestamp - leaderTimestamp)
            + min (currentTimestamp - leaderTimestamp) expectedAuctionDuration) := by
  have hv : safeToNumber (currentTimestamp - leaderTimestamp)
      = currentTimestamp - leaderTimestamp := by
    unfold safeToNumber MAX_SAFE_NUMBER MIN_SAFE_NUMBER
    unfold MAX_SAFE_NUMBER at hsafe
    split_ifs <;> omega
  simp [calculateBGTRewards, hv]

/-- Witness for C6 amended at concrete inputs. -/
theorem calculateBGTRewards_spec_witness :
    (0 : Int) ≤ 2 ∧ (100 : Int) ≤ 160 ∧
      (160 : Int) - 100 ≤ MAX_SAFE_NUMBER ∧
      (160 : Int) - 100 + min ((160 : Int) - 100) 60 ≤ MAX_SAFE_NUMBER ∧
      ((calculateBGTRewards 2 100 160 60).timeElapsed = 160 - 100 ∧
        (calculateBGTRewards 2 100 160 60).totalAccumulated
          = 2 * ((160 - 100) + min ((160 : Int) - 100) 60)) :=
  ⟨by decide, by decide, by decide, by decide,
    calculateBGTRewards_spec 2 100 160 60 (by decide) (by decide) (by decide) (by decide)⟩

/-- C7 counterexample: with a zero accrual rate and a zero leader price,
`calculateProfitMetrics` reports `breakEvenTime = Infinity`, not 0. -/
theorem calculateProfitMetrics_zeroPrice_counterexample :
    ¬ ((calculateProfitMetrics 0 ⟨0, 0, 0⟩ 60 [0, 10, 20, 40, 60]).breakEvenTime
        = .fin 0) := by
  decide

/-- C7 amended: when the price paid by the leader is zero, the projector
returns `returnPercentage = 0` and `profitPercentage = 0` without error;
`breakEvenTime` is 0 when the accrual rate is positive and `Infinity` when
the rate is zero. -/
theorem calculateProfitMetrics_zeroPrice (bgtRewards : BGTRewards)
    (expectedAuctionDuration : Int) (profitThresholds : List ℚ)
    (hrate : 0 ≤ bgtRewards.bgtPerSecond) :
    (calculateProfitMetrics 0 bgtRewards expectedAuctionDuration
        profitThresholds).returnPercentage = 0 ∧
      (calculateProfitMetrics 0 bgtRewards expectedAuctionDuration
          profitThresholds).profitPercentage = 0 ∧
      (0 < bgtRewards.bgtPerSecond →
        (calculateProfitMetrics 0 bgtRewards expectedAuctionDuration
            profitThresholds).breakEvenTime = .fin 0) ∧
      (bgtRewards.bgtPerSecond = 0 →
        (calculateProfitMetrics 0 bgtRewards expectedAuctionDuration
            profitThresholds).breakEvenTime = .posInf) := by
  have hstn : safeToNumber 0 = 0 := by decide
  refine ⟨?_, ?_, ?_, ?_⟩
  · simp [calculateProfitMetrics]
  · simp [calculateProfitMetrics]
  · intro hpos
    simp only [calculateProfitMetrics]
    rw [if_pos hpos]
    unfold safeDivideToNumber
    rw [if_neg (by omega), Int.zero_tdiv, hstn]
    norm_num
  · intro hzero
    simp only [calculateProfitMetrics]
    rw [if_neg (by omega)]

/-- Witness for C7 amended at concrete inputs. -/
theorem calculateProfitMetrics_zeroPrice_witness :
    (0 : Int) ≤ 5 ∧
      ((calculateProfitMetrics 0 ⟨5, 50, 10⟩ 60 [0]).returnPercentage = 0 ∧
        (calculateProfitMetrics 0 ⟨5, 50, 10⟩ 60 [0]).profitPercentage = 0 ∧
        ((0 : Int) < 5 →
          (calculateProfitMetrics 0 ⟨5, 50, 10⟩ 60 [0]).breakEvenTime = .fin 0) ∧
        ((5 : Int) = 0 →
          (calculateProfitMetrics 0 ⟨5, 50, 10⟩ 60 [0]).breakEvenTime = .posInf)) :=
  ⟨by decide, calculateProfitMetrics_zeroPrice ⟨5, 50, 10⟩ 60 [0] (by decide)⟩

/-! ## Core data model (src/core/types.ts)

`metadata : Record<string, any>` bags on decisions and thoughts are
presentational debug payloads; no claim references them and they are not
modelled.  `Date` fields carry their epoch value; `ReadonlySet<string>`
is carried as a list. -/

/-- `AuctionState` of core/types.ts. -/
structure AuctionState where
  currentPrice : Int
  currentLeader : String
  leaderAmount : Int
  leaderTimestamp : Int
  isAuctionPhase : Bool
  auctionMaxFactor : ℚ
  lastPaidPrice : Option Int
  lastYeetRound : Option Int
  auctionStartTimeMs : Option Int
deriving DecidableEq

/-- `WalletInfo` of core/types.ts. -/
structure WalletInfo where
  address : String
  isOurWallet : Bool
deriving DecidableEq

/-- `RuleConfig` of core/types.ts. -/
structure RuleConfig where
  othersProfitThreshold : ℚ
  selfProfitThreshold : ℚ
  blacklistProfitThreshold : ℚ
  snipeBufferSeconds : ℚ
  blacklistedAddresses : List String
  maxAuctionFactor : ℚ
  ourWallets : List String
  maxYeetAmount : String
deriving DecidableEq

/-- `RuleContext` of core/types.ts. -/
structure RuleContext where
  auction : AuctionState
  bgtRewards : BGTRewards
  profit : ProfitMetrics
  wallet : WalletInfo
  config : RuleConfig
  lastPaidPrice : Option Int
deriving DecidableEq

/-- `YeetDecision` of core/types.ts (without the untyped `metadata` bag). -/
structure YeetDecision where
  shouldYeet : Bool
  reason : String
  priority : Int
  ruleName : Option String := none
  suggestedGasMultiplier : Option ℚ := none
deriving DecidableEq, Inhabited

/-- `RuleThoughts` of core/types.ts (without the untyped `metadata` bag). -/
structure RuleThoughts where
  currentValue : String
  targetValue : String
  progress : ℚ
  reasoning : String
deriving DecidableEq

/-- `RuleEvaluation` of core/types.ts. -/
structure RuleEvaluation where
  decision : Option YeetDecision
  thoughts : RuleThoughts
deriving DecidableEq

/-- The `IRule` interface (core/interfaces/IRule.ts), as consumed by the
Arbitrator: a name and a total evaluation function. -/
structure IRule where
  name : String
  priority : Int
  evaluate : RuleContext → RuleEvaluation

/-! ## DecisionEngine (src/services/DecisionEngine.ts)

`DecisionEngine.evaluate` collects the decisions of the registered rules in
registration order (the `Map` iterates in insertion order), sorts them with
`decisions.sort((a, b) => b.priority - a.priority)` — a stable sort
(ES2019) by descending priority, modelled by stable insertion sort — then
returns the first blocking decision if one exists, else the sorted head. -/

/-- One step of the stable insertion sort by descending `priority`: the
inserted element goes before every element of not-larger priority, so
earlier-registered decisions stay ahead on ties. -/
def sortInsert (x : YeetDecision) : List YeetDecision → List YeetDecision
  | [] => [x]
  | h :: t => if h.priority ≤ x.priority then x :: h :: t else h :: sortInsert x t

/-- Stable sort by descending `priority`, the behaviour of
`decisions.sort((a, b) => b.priority - a.priority)`. -/
def sortByPriorityDesc : List YeetDecision → List YeetDecision
  | [] => []
  | x :: xs => sortInsert x (sortByPriorityDesc xs)

/-- The default decision of the `decisions.length === 0` branch. -/
def noRulesDecision : YeetDecision :=
  { shouldYeet := false, reason := "No rules triggered", priority := 0 }

/-- Lines 71–93 of DecisionEngine.ts: pick the final decision from the
collected rule decisions. -/
def arbitrate (decisions : List YeetDecision) : YeetDecision :=
  if decisions.isEmpty then noRulesDecision
  else
    let sorted := sortByPriorityDesc decisions
    match sorted.find? (fun d => !d.shouldYeet) with
    | some blocking => blocking
    | none => sorted.headI

/-- The rule-evaluation loop of `DecisionEngine.evaluate`: decisions of the
registered rules, in registration order, with non-deciding rules dropped. -/
def collectDecisions (rules : List IRule) (context : RuleContext) : List YeetDecision :=
  (rules.map fun r => (r.evaluate context).decision).filterMap id

/-- `DecisionEngine.evaluate`. -/
def DecisionEngine.evaluate (rules : List IRule) (context : RuleContext) : YeetDecision :=
  arbitrate (collectDecisions rules context)

/-- A concrete evaluation context, after the fixture of the repository's
rule tests, with well-formed addresses so that context validation passes. -/
def sampleContext : RuleContext :=
  { auction :=
      { currentPrice := 10000
        currentLeader := "0xaaaaaaaaaaaaaaaaaaaaaaaaaaaaaaaaaaaaaaaa"
        leaderAmount := 10000
        leaderTimestamp := 1000
        isAuctionPhase := true
        auctionMaxFactor := 6/5
        lastPaidPrice := none
        lastYeetRound := none
        auctionStartTimeMs := none }
    bgtRewards := ⟨100, 5000, 50⟩
    profit :=
      { returnPercentage := 50
        profitPercentage := -50
        netProfit := -5000
        breakEvenTime := .fin 100
        timeToProfit := [] }
    wallet :=
      { address := "0xbbbbbbbbbbbbbbbbbbbbbbbbbbbbbbbbbbbbbbbb"
        isOurWallet := true }
    config :=
      { othersProfitThreshold := 2
        selfProfitThreshold := 5
        blacklistProfitThreshold := -5
        snipeBufferSeconds := 3
        blacklistedAddresses := []
        maxAuctionFactor := 7/5
        ourWallets := ["0xbbbbbbbbbbbbbbbbbbbbbbbbbbbbbbbbbbbbbbbb"]
        maxYeetAmount := "20" }
    lastPaidPrice := none }

theorem mem_sortInsert {x y : YeetDecision} {l : List YeetDecision} :
    y ∈ sortInsert x l ↔ y = x ∨ y ∈ l := by
  induction l with
  | nil => simp [sortInsert]
  | cons h t ih =>
    simp only [sortInsert]
    split_ifs <;> simp [ih] <;> tauto

theorem mem_sortByPriorityDesc {y : YeetDecision} {l : List YeetDecision} :
    y ∈ sortByPriorityDesc l ↔ y ∈ l := by
  induction l with
  | nil => simp [sortByPriorityDesc]
  | cons x xs ih => simp [sortByPriorityDesc, mem_sortInsert, ih]

/-- C1: whenever at least one registered rule returns a blocking
(`shouldYeet = false`) decision, the engine's final decision is blocking,
whatever the priorities of the acting decisions. -/
theorem evaluate_blocking_precedence (rules : List IRule) (context : RuleContext)
    (hblock : ∃ r ∈ rules, ∃ d, (r.evaluate context).decision = some d ∧
      d.shouldYeet = false) :
    (DecisionEngine.evaluate rules context).shouldYeet = false := by
  obtain ⟨r, hr, d, hd, hdy⟩ := hblock
  have hmem : d ∈ collectDecisions rules context := by
    unfold collectDecisions
    rw [List.mem_filterMap]
    exact ⟨some d, by rw [List.mem_map]; exact ⟨r, hr, hd⟩, rfl⟩
  have hmem2 : d ∈ sortByPriorityDesc (collectDecisions rules context) :=
    mem_sortByPriorityDesc.mpr hmem
  have hsome : (List.find? (fun d => !d.shouldYeet)
      (sortByPriorityDesc (collectDecisions rules context))).isSome := by
    rw [List.find?_isSome]
    exact ⟨d, hmem2, by simp [hdy]⟩
  obtain ⟨b, hb⟩ := Option.isSome_iff_exists.mp hsome
  have hbprop := List.find?_some hb
  unfold DecisionEngine.evaluate arbitrate
  rw [if_neg (by simp [List.isEmpty_iff]; exact List.ne_nil_of_mem hmem)]
  dsimp only
  rw [hb]
  simpa using hbprop

/-- Witness for C1 at concrete rules and context: a low-priority blocking
rule beats a high-priority acting rule. -/
theorem evaluate_blocking_precedence_witness :
    (∃ r ∈ [IRule.mk "Block" 50 fun _ =>
        ⟨some ⟨false, "Safety block", 50, none, none⟩, ⟨"", "", 0, ""⟩⟩,
      IRule.mk "Allow" 100 fun _ =>
        ⟨some ⟨true, "Should yeet", 100, none, none⟩, ⟨"", "", 0, ""⟩⟩],
      ∃ d, (r.evaluate sampleContext).decision = some d ∧ d.shouldYeet = false) ∧
    (DecisionEngine.evaluate [IRule.mk "Block" 50 fun _ =>
        ⟨some ⟨false, "Safety block", 50, none, none⟩, ⟨"", "", 0, ""⟩⟩,
      IRule.mk "Allow" 100 fun _ =>
        ⟨some ⟨true, "Should yeet", 100, none, none⟩, ⟨"", "", 0, ""⟩⟩]
      sampleContext).shouldYeet = false :=
  ⟨⟨_, List.mem_cons_self _ _, ⟨false, "Safety block", 50, none, none⟩, rfl, rfl⟩,
    evaluate_blocking_precedence _ sampleContext
      ⟨_, List.mem_cons_self _ _, ⟨false, "Safety block", 50, none, none⟩, rfl, rfl⟩⟩

/-- Modelled from the spec: the acting decision of numerically highest
priority, with the first-registered decision winning ties.  Compared below
with the head of the engine's stable sort. -/
def firstTriggeredMax : List YeetDecision → Option YeetDecision
  | [] => none
  | x :: xs =>
    match firstTriggeredMax xs with
    | none => some x
    | some m => some (if x.priority < m.priority then m else x)

theorem firstTriggeredMax_isSome {l : List YeetDecision} (h : l ≠ []) :
    ∃ m, firstTriggeredMax l = some m := by
  cases l with
  | nil => exact absurd rfl h
  | cons x xs =>
    simp only [firstTriggeredMax]
    cases firstTriggeredMax xs with
    | none => exact ⟨x, rfl⟩
    | some m2 => exact ⟨_, rfl⟩

theorem firstTriggeredMax_mem {l : List YeetDecision} {m : YeetDecision}
    (h : firstTriggeredMax l = some m) : m ∈ l := by
  induction l with
  | nil => simp [firstTriggeredMax] at h
  | cons x xs ih =>
    simp only [firstTriggeredMax] at h
    cases hxs : firstTriggeredMax xs with
    | none =>
      rw [hxs] at h
      simp only [Option.some.injEq] at h
      subst h
      exact List.mem_cons_self _ _
    | some m2 =>
      rw [hxs] at h
      simp only [Option.some.injEq] at h
      by_cases hcmp : x.priority < m2.priority
      · rw [if_pos hcmp] at h
        exact List.mem_cons_of_mem x (ih (by rw [hxs, h]))
      · rw [if_neg hcmp] at h
        subst h
        exact List.mem_cons_self _ _

theorem firstTriggeredMax_le : ∀ {l : List YeetDecision} {m : YeetDecision},
    firstTriggeredMax l = some m → ∀ d ∈ l, d.priority ≤ m.priority := by
  intro l
  induction l with
  | nil => intro m h d hd; simp at hd
  | cons x xs ih =>
    intro m h d hd
    simp only [firstTriggeredMax] at h
    cases hxs : firstTriggeredMax xs with
    | none =>
      rw [hxs] at h
      simp only [Option.some.injEq] at h
      subst h
      have hxsnil : xs = [] := by
        cases xs with
        | nil => rfl
        | cons a as =>
          exfalso
          obtain ⟨mm, hmm⟩ := firstTriggeredMax_isSome (l := a :: as) (by simp)
          rw [hmm] at hxs
          cases hxs
      subst hxsnil
      rcases List.mem_cons.mp hd with rfl | hd2
      · exact le_refl _
      · simp at hd2
    | some m2 =>
      rw [hxs] at h
      simp only [Option.some.injEq] at h
      have hle2 := ih hxs
      rcases List.mem_cons.mp hd with rfl | hd2
      · by_cases hcmp : d.priority < m2.priority
        · rw [if_pos hcmp] at h
          subst h
          omega
        · rw [if_neg hcmp] at h
          subst h
          omega
      · have hd3 := hle2 d hd2
        by_cases hcmp : x.priority < m2.priority
        · rw [if_pos hcmp] at h
          subst h
          exact hd3
        · rw [if_neg hcmp] at h
          subst h
          omega

theorem head?_sortInsert (x : YeetDecision) (l : List YeetDecision) :
    (sortInsert x l).head? = some (match l.head? with
      | none => x
      | some h => if h.priority ≤ x.priority then x else h) := by
  cases l with
  | nil => rfl
  | cons h t =>
    simp only [sortInsert, List.head?]
    split_ifs with hc <;> simp [hc]

theorem head?_sortByPriorityDesc (l : List YeetDecision) :
    (sortByPriorityDesc l).head? = firstTriggeredMax l := by
  induction l with
  | nil => rfl
  | cons x xs ih =>
    simp only [sortByPriorityDesc, firstTriggeredMax]
    rw [head?_sortInsert, ih]
    cases hxs : firstTriggeredMax xs with
    | none => rfl
    | some m =>
      simp only
      by_cases hcmp : m.priority ≤ x.priority
      · rw [if_pos hcmp, if_neg (by omega)]
      · rw [if_neg hcmp, if_pos (by omega)]

/-- C3: when every triggered decision has `shouldYeet = true` (and at least
one rule triggered), the engine returns exactly the triggered decision of
numerically maximal priority, the first-registered one on a tie. -/
theorem evaluate_priority_selection (rules : List IRule) (context : RuleContext)
    (hne : collectDecisions rules context ≠ [])
    (hall : ∀ d ∈ collectDecisions rules context, d.shouldYeet = true) :
    ∃ m, firstTriggeredMax (collectDecisions rules context) = some m ∧
      DecisionEngine.evaluate rules context = m ∧
      m ∈ collectDecisions rules context ∧
      ∀ d ∈ collectDecisions rules context, d.priority ≤ m.priority := by
  obtain ⟨m, hm⟩ := firstTriggeredMax_isSome hne
  refine ⟨m, hm, ?_, firstTriggeredMax_mem hm, firstTriggeredMax_le hm⟩
  unfold DecisionEngine.evaluate arbitrate
  rw [if_neg (by simp [List.isEmpty_iff, hne])]
  dsimp only
  have hfind : (List.find? (fun d => !d.shouldYeet)
      (sortByPriorityDesc (collectDecisions rules context))) = none := by
    rw [List.find?_eq_none]
    intro d hd
    have := hall d (mem_sortByPriorityDesc.mp hd)
    simp [this]
  rw [hfind]
  have hhead := head?_sortByPriorityDesc (collectDecisions rules context)
  rw [hm] at hhead
  cases hs : sortByPriorityDesc (collectDecisions rules context) with
  | nil => rw [hs] at hhead; cases hhead
  | cons s rest =>
    rw [hs] at hhead
    simp only [List.head?, Option.some.injEq] at hhead
    simp [hhead]

/-- Low-priority acting test rule, after the repository engine test. -/
def lowRule : IRule :=
  ⟨"LowRule", 50, fun _ =>
    ⟨some ⟨true, "Low priority reason", 50, none, none⟩, ⟨"", "", 0, ""⟩⟩⟩

/-- High-priority acting test rule, after the repository engine test. -/
def highRule : IRule :=
  ⟨"HighRule", 80, fun _ =>
    ⟨some ⟨true, "High priority reason", 80, none, none⟩, ⟨"", "", 0, ""⟩⟩⟩

/-- Witness for C3 at concrete rules and context: of two acting decisions
with priorities 50 and 80, the priority-80 one is returned. -/
theorem evaluate_priority_selection_witness :
    (collectDecisions [lowRule, highRule] sampleContext ≠ [] ∧
      ∀ d ∈ collectDecisions [lowRule, highRule] sampleContext,
        d.shouldYeet = true) ∧
    ∃ m, firstTriggeredMax (collectDecisions [lowRule, highRule] sampleContext)
        = some m ∧
      DecisionEngine.evaluate [lowRule, highRule] sampleContext = m ∧
      m ∈ collectDecisions [lowRule, highRule] sampleContext ∧
      ∀ d ∈ collectDecisions [lowRule, highRule] sampleContext,
        d.priority ≤ m.priority :=
  ⟨⟨by decide, by decide⟩,
    evaluate_priority_selection [lowRule, highRule] sampleContext
      (by decide) (by decide)⟩

/-- Never-triggering test rule. -/
def idleRule : IRule := ⟨"Rule1", 50, fun _ => ⟨none, ⟨"", "", 0, "idle"⟩⟩⟩

/-- C9 counterexample: with a registered rule that returns no decision, the
engine's canonical default carries the reason string "No rules triggered",
not the claimed "no rule triggered". -/
theorem evaluate_noRules_counterexample :
    ¬ ((DecisionEngine.evaluate [idleRule] sampleContext).reason
        = "no rule triggered") := by decide

/-- C9 amended: when no registered rule returns a decision, the engine
returns exactly the canonical decision with `shouldYeet = false`, reason
"No rules triggered" and priority 0. -/
theorem evaluate_no_rules_triggered (rules : List IRule) (context : RuleContext)
    (hnone : ∀ r ∈ rules, (r.evaluate context).decision = none) :
    DecisionEngine.evaluate rules context
      = { shouldYeet := false, reason := "No rules triggered", priority := 0 } := by
  have hempty : collectDecisions rules context = [] := by
    unfold collectDecisions
    rw [List.filterMap_eq_nil_iff]
    intro o ho
    rw [List.mem_map] at ho
    obtain ⟨r, hr, rfl⟩ := ho
    exact hnone r hr
  unfold DecisionEngine.evaluate
  rw [hempty]
  rfl

/-- Witness for C9 amended: one registered rule that never decides. -/
theorem evaluate_no_rules_triggered_witness :
    (∀ r ∈ [idleRule], (r.evaluate sampleContext).decision = none) ∧
      DecisionEngine.evaluate [idleRule] sampleContext
        = { shouldYeet := false, reason := "No rules triggered", priority := 0 } :=
  ⟨by decide, evaluate_no_rules_triggered [idleRule] sampleContext (by decide)⟩

/-! ## Execution serializer (BotRunner.executeYeet, src/bot/BotRunner.ts)

`executeYeet` assigns `const lockId = ++this.yeetLockCount` and chains the
body onto `this.yeetMutex` — a single ordered promise queue.  When a body's
turn arrives it runs `executeYeetInternal` only if its `lockId` still
equals `this.yeetLockCount`, otherwise it is dropped as superseded.  The
promise chain runs bodies one at a time in FIFO order; this is modelled as
a state machine whose events are submissions and turn completions. -/

/-- State of the serializer: the token counter `yeetLockCount`, the FIFO
`queue` of pending bodies (by token), and histories of issued, executed and
discarded tokens in order of occurrence. -/
structure SerializerState where
  yeetLockCount : Nat
  queue : List Nat
  issued : List Nat
  executed : List Nat
  discarded : List Nat
deriving DecidableEq

/-- Fresh `BotRunner` state: `yeetLockCount = 0`, nothing queued. -/
def SerializerState.start : SerializerState := ⟨0, [], [], [], []⟩

/-- A call of `executeYeet`: pre-increment the counter, use the result as
the submission's token, and append the body to the promise chain. -/
def submitYeet (s : SerializerState) : SerializerState :=
  let lockId := s.yeetLockCount + 1
  { s with
    yeetLockCount := lockId
    queue := s.queue ++ [lockId]
    issued := s.issued ++ [lockId] }

/-- A queued body reaching its turn on the chain:
`if (lockId !== this.yeetLockCount)` the body is dropped ("Yeet superseded
by newer request"), else `executeYeetInternal(decision)` runs. -/
def runNextYeet (s : SerializerState) : SerializerState :=
  match s.queue with
  | [] => s
  | lockId :: rest =>
    if lockId = s.yeetLockCount then
      { s with queue := rest, executed := s.executed ++ [lockId] }
    else
      { s with queue := rest, discarded := s.discarded ++ [lockId] }

/-- The two kinds of serializer events: an `executeYeet` call, and a queued
body reaching its turn. -/
inductive SerializerEvent where
  | submit
  | turn
deriving DecidableEq

/-- One serializer step. -/
def serializerStep (s : SerializerState) : SerializerEvent → SerializerState
  | .submit => submitYeet s
  | .turn => runNextYeet s

/-- The serializer state after a trace of events from a fresh bot. -/
def runSerializer (events : List SerializerEvent) : SerializerState :=
  events.foldl serializerStep SerializerState.start

/-- Invariant of the serializer: executed-then-pending tokens are strictly
increasing and bounded by the counter, as are the issued tokens. -/
def SerializerInv (s : SerializerState) : Prop :=
  (s.executed ++ s.queue).Pairwise (· < ·) ∧
    (∀ x ∈ s.executed ++ s.queue, x ≤ s.yeetLockCount) ∧
    s.issued.Pairwise (· < ·) ∧
    (∀ x ∈ s.issued, x ≤ s.yeetLockCount)

theorem serializerInv_start : SerializerInv SerializerState.start := by
  refine ⟨?_, ?_, ?_, ?_⟩ <;> simp [SerializerState.start]

theorem serializerInv_step (s : SerializerState) (hs : SerializerInv s)
    (e : SerializerEvent) : SerializerInv (serializerStep s e) := by
  obtain ⟨h1, h2, h3, h4⟩ := hs
  cases e with
  | submit =>
    simp only [serializerStep, submitYeet]
    refine ⟨?_, ?_, ?_, ?_⟩
    · rw [← List.append_assoc, List.pairwise_append]
      refine ⟨h1, List.pairwise_singleton _ _, ?_⟩
      intro a ha b hb
      simp only [List.mem_singleton] at hb
      subst hb
      have := h2 a ha
      omega
    · intro x hx
      dsimp only
      rw [← List.append_assoc] at hx
      rcases List.mem_append.mp hx with h | h
      · have := h2 x h; omega
      · simp only [List.mem_singleton] at h; omega
    · rw [List.pairwise_append]
      refine ⟨h3, List.pairwise_singleton _ _, ?_⟩
      intro a ha b hb
      simp only [List.mem_singleton] at hb
      subst hb
      have := h4 a ha
      omega
    · intro x hx
      dsimp only
      rcases List.mem_append.mp hx with h | h
      · have := h4 x h; omega
      · simp only [List.mem_singleton] at h; omega
  | turn =>
    simp only [serializerStep, runNextYeet]
    cases hq : s.queue with
    | nil => exact ⟨h1, h2, h3, h4⟩
    | cons lockId rest =>
      rw [hq] at h1 h2
      dsimp only
      split_ifs with ht
      · refine ⟨?_, ?_, h3, h4⟩
        · have heq : s.executed ++ [lockId] ++ rest = s.executed ++ lockId :: rest := by
            simp
          dsimp only
          rw [heq]
          exact h1
        · intro x hx
          dsimp only at hx
          rw [List.append_assoc] at hx
          simp only [List.singleton_append] at hx
          exact h2 x hx
      · refine ⟨?_, ?_, h3, h4⟩
        · have hsub : List.Sublist (s.executed ++ rest) (s.executed ++ lockId :: rest) :=
            List.Sublist.append_left (List.sublist_cons_self lockId rest) _
          exact h1.sublist hsub
        · intro x hx
          dsimp only at hx
          rcases List.mem_append.mp hx with h | h
          · exact h2 x (List.mem_append.mpr (Or.inl h))
          · exact h2 x (List.mem_append.mpr (Or.inr (List.mem_cons_of_mem _ h)))

theorem serializerInv_run (events : List SerializerEvent) :
    SerializerInv (runSerializer events) := by
  unfold runSerializer
  have hgen : ∀ (evs : List SerializerEvent) (s : SerializerState),
      SerializerInv s → SerializerInv (List.foldl serializerStep s evs) := by
    intro evs
    induction evs with
    | nil => intro s hs; exact hs
    | cons e es ih => intro s hs; exact ih _ (serializerInv_step s hs e)
  exact hgen events _ serializerInv_start

/-- C2: along any event trace of the serializer, issued tokens are strictly
increasing (a new submission's token exceeds every earlier one); when a
queued body's turn arrives it executes exactly if its token still equals
the most recently issued token, and is otherwise discarded without
executing; and the executed tokens are strictly increasing — bodies run one
at a time in supersession order, never concurrently. -/
theorem serializer_single_flight (events : List SerializerEvent)
    (lockId : Nat) (rest : List Nat)
    (hq : (runSerializer events).queue = lockId :: rest) :
    List.Pairwise (· < ·) (runSerializer events).issued ∧
      (∀ x ∈ (runSerializer events).issued,
        x < (submitYeet (runSerializer events)).yeetLockCount) ∧
      List.Pairwise (· < ·) (runSerializer events).executed ∧
      (lockId = (runSerializer events).yeetLockCount →
        (runNextYeet (runSerializer events)).executed
          = (runSerializer events).executed ++ [lockId]) ∧
      (lockId ≠ (runSerializer events).yeetLockCount →
        (runNextYeet (runSerializer events)).executed
            = (runSerializer events).executed ∧
          (runNextYeet (runSerializer events)).discarded
            = (runSerializer events).discarded ++ [lockId]) := by
  obtain ⟨h1, h2, h3, h4⟩ := serializerInv_run events
  refine ⟨h3, ?_, (List.pairwise_append.mp h1).1, ?_, ?_⟩
  · intro x hx
    have := h4 x hx
    simp only [submitYeet]
    omega
  · intro ht
    simp only [runNextYeet, hq]
    rw [if_pos ht]
  · intro ht
    simp only [runNextYeet, hq]
    rw [if_neg ht]
    exact ⟨rfl, rfl⟩

/-- Witness for C2: after two submissions, the queued first body (token 1,
superseded by token 2) is discarded without executing. -/
theorem serializer_single_flight_witness :
    (runSerializer [.submit, .submit]).queue = 1 :: [2] ∧
      (List.Pairwise (· < ·) (runSerializer [.submit, .submit]).issued ∧
        (∀ x ∈ (runSerializer [.submit, .submit]).issued,
          x < (submitYeet (runSerializer [.submit, .submit])).yeetLockCount) ∧
        List.Pairwise (· < ·) (runSerializer [.submit, .submit]).executed ∧
        (1 = (runSerializer [.submit, .submit]).yeetLockCount →
          (runNextYeet (runSerializer [.submit, .submit])).executed
            = (runSerializer [.submit, .submit]).executed ++ [1]) ∧
        (1 ≠ (runSerializer [.submit, .submit]).yeetLockCount →
          (runNextYeet (runSerializer [.submit, .submit])).executed
              = (runSerializer [.submit, .submit]).executed ∧
            (runNextYeet (runSerializer [.submit, .submit])).discarded
              = (runSerializer [.submit, .submit]).discarded ++ [1])) :=
  ⟨by decide, serializer_single_flight [.submit, .submit] 1 [2] (by decide)⟩

/-! ## RULE_PRIORITIES (src/core/constants.ts) -/

namespace RULE_PRIORITIES

def BGT_EQUALS_PRICE : Int := 90

def BLACKLIST : Int := 80

def SAFETY : Int := 70

def SELF_PROTECTION : Int := 60

def STANDARD_SNIPE : Int := 50

def MARKET_PRICE : Int := 45

def TIME_DECAY : Int := 45

def PREDICTIVE_TIMING : Int := 35

end RULE_PRIORITIES

/-! ## Validation utilities (src/utils/validation.ts)

`typeof`-shape checks of the TypeScript code hold by construction in the
typed model; the data-dependent checks (address format, non-negativity,
finiteness of possibly-infinite numbers) are modelled. -/

/-- `isValidAddress`: the string matches `^0x[a-fA-F0-9]{40}$`, checked
over the string's character data. -/
def isValidAddress (address : String) : Bool :=
  address.length = 42 &&
    (match address.data with
      | '0' :: 'x' :: rest =>
        rest.all fun c =>
          (c ≥ 'a' && c ≤ 'f') || (c ≥ 'A' && c ≤ 'F') || c.isDigit
      | _ => false)

/-- `validateNonNegativeBigInt`. -/
def validateNonNegativeBigInt (value : Int) (fieldName : String) :
    Except String Unit :=
  if value < 0 then
    .error (fieldName ++ " must be non-negative, got " ++ toString value)
  else .ok ()

/-- `validateFiniteNumber` applied to a possibly-infinite Number.  (For
fields modelled as `ℚ` the check passes by construction.) -/
def validateFiniteJsNum (value : JsNum) (fieldName : String) :
    Except String Unit :=
  match value with
  | .fin _ => .ok ()
  | _ => .error (fieldName ++ " must be a finite number")

/-- `validateRuleContext`, keeping the order of checks of validation.ts. -/
def validateRuleContext (context : RuleContext) : Except String Unit := do
  if !isValidAddress context.auction.currentLeader then
    throw ("Invalid auction.currentLeader address: "
      ++ context.auction.currentLeader)
  validateNonNegativeBigInt context.auction.currentPrice "auction.currentPrice"
  validateNonNegativeBigInt context.auction.leaderAmount "auction.leaderAmount"
  validateNonNegativeBigInt context.auction.leaderTimestamp "auction.leaderTimestamp"
  validateNonNegativeBigInt context.bgtRewards.bgtPerSecond "bgtRewards.bgtPerSecond"
  validateNonNegativeBigInt context.bgtRewards.totalAccumulated "bgtRewards.totalAccumulated"
  validateFiniteJsNum context.profit.breakEvenTime "profit.breakEvenTime"
  if !isValidAddress context.wallet.address then
    throw ("Invalid wallet.address: " ++ context.wallet.address)
  pure ()

/-! ## BGTEqualsCurrentPriceRule (src/rules/BGTEqualsCurrentPriceRule.ts) -/

/-- Left-pad with zeros to four digits, for the fractional part below. -/
def padZeros4 (n : Nat) : String :=
  let s := toString n
  String.mk (List.replicate (4 - s.length) '0') ++ s

/-- `parseFloat(formatEther(x)).toFixed(4)`: the wei value in ether,
rounded half-up to four decimal places.  No claim inspects the content of
the formatted strings, so binary-float formatting artifacts of `toFixed`
are not modelled. -/
def fixed4OfWei (x : Int) : String :=
  let sign := if x < 0 then "-" else ""
  let q := (x.natAbs + 50000000000000) / 100000000000000
  sign ++ toString (q / 10000) ++ "." ++ padZeros4 (q % 10000)

/-- Decimal rendering of a rational for template strings.  The
claim-relevant values printed this way are integers, where this agrees
with JavaScript number printing. -/
def qToString (q : ℚ) : String :=
  if q.den = 1 then toString q.num
  else toString q.num ++ "/" ++ toString q.den

/-- The threshold-parity rule, holding its clamped profit buffer (a
percentage). -/
structure BGTEqualsCurrentPriceRule where
  profitBuffer : ℚ
deriving DecidableEq

/-- `name = 'BGTEqualsCurrentPrice'`. -/
def BGTEqualsCurrentPriceRule.name (_ : BGTEqualsCurrentPriceRule) : String :=
  "BGTEqualsCurrentPrice"

/-- `priority = RULE_PRIORITIES.BGT_EQUALS_PRICE`. -/
def BGTEqualsCurrentPriceRule.priority (_ : BGTEqualsCurrentPriceRule) : Int :=
  RULE_PRIORITIES.BGT_EQUALS_PRICE

/-- The constructor of BGTEqualsCurrentPriceRule.ts.  The caller-supplied
`profitBuffer` may be `undefined` at runtime (modelled as `none`); that
raises an error, otherwise the buffer is clamped to [0, 100]. -/
def BGTEqualsCurrentPriceRule.make (profitBuffer : Option ℚ) :
    Except String BGTEqualsCurrentPriceRule :=
  match profitBuffer with
  | none => .error
      "BGTEqualsCurrentPriceRule: profitBuffer is required and should come from config"
  | some pb => .ok { profitBuffer := max 0 (min 100 pb) }

/-- `BGTEqualsCurrentPriceRule.evaluate`.  It first runs
`validateRuleContext` (which throws on a malformed context, hence the
`Except`), then compares accumulated BGT with the buffered required
amount. -/
def BGTEqualsCurrentPriceRule.evaluate (rule : BGTEqualsCurrentPriceRule)
    (context : RuleContext) : Except String RuleEvaluation := do
  validateRuleContext context
  let auction := context.auction
  let bgtRewards := context.bgtRewards
  let bufferMultiplier : ℚ := 1 + rule.profitBuffer / 100
  let requiredBGT := Int.tdiv (auction.currentPrice * ⌊bufferMultiplier * 10000⌋) 10000
  let bgtFormatted := fixed4OfWei bgtRewards.totalAccumulated
  let requiredFormatted := fixed4OfWei requiredBGT
  let progress : ℚ :=
    if auction.currentPrice > 0 then
      min 100 ((Int.tdiv (bgtRewards.totalAccumulated * 100) requiredBGT : Int) : ℚ)
    else 0
  let bgtNeeded :=
    if requiredBGT > bgtRewards.totalAccumulated then
      requiredBGT - bgtRewards.totalAccumulated
    else 0
  let timeToTarget : JsNum :=
    if bgtRewards.bgtPerSecond > 0 then
      .fin ((Int.tdiv bgtNeeded bgtRewards.bgtPerSecond : Int) : ℚ)
    else .posInf
  if bgtRewards.totalAccumulated ≥ requiredBGT then
    pure
      { decision := some
          { shouldYeet := true
            reason := "BGT earnings (" ++ bgtFormatted ++ ") >= required BGT ("
              ++ requiredFormatted ++ ") [" ++ qToString rule.profitBuffer
              ++ "% buffer]"
            priority := rule.priority
            ruleName := some rule.name
            suggestedGasMultiplier := some (1.5 : ℚ) }
        thoughts :=
          { currentValue := "BGT: " ++ bgtFormatted ++ " BERA"
            targetValue := "Need: " ++ requiredFormatted ++ " BERA (price + "
              ++ qToString rule.profitBuffer ++ "% buffer)"
            progress := 100
            reasoning := "BGT accumulated exceeds price with buffer - ready to yeet!" } }
  else
    pure
      { decision := none
        thoughts :=
          { currentValue := "BGT: " ++ bgtFormatted ++ " BERA"
            targetValue := "Need: " ++ requiredFormatted ++ " BERA"
            progress := progress
            reasoning :=
              match timeToTarget with
              | .fin tt => "Accumulating BGT... " ++ qToString tt
                  ++ "s until target (price + " ++ qToString rule.profitBuffer
                  ++ "% buffer)"
              | _ => "Waiting for BGT to reach price + "
                  ++ qToString rule.profitBuffer ++ "% buffer" } }

/-- C10: constructing the threshold-parity rule with an undefined profit
buffer raises an error rather than defaulting; every defined buffer value
constructs successfully. -/
theorem make_requires_profitBuffer :
    (∃ msg, BGTEqualsCurrentPriceRule.make none = .error msg) ∧
      ∀ pb : ℚ, ∃ rule, BGTEqualsCurrentPriceRule.make (some pb) = .ok rule :=
  ⟨⟨_, rfl⟩, fun _ => ⟨_, rfl⟩⟩

/-- Scenario A of the spec: price 10000, accrued 10000, 0 % buffer. -/
def scenarioAContext : RuleContext :=
  { sampleContext with bgtRewards := ⟨100, 10000, 100⟩ }

/-- C8 (code bug): in Scenario A the threshold-parity rule acts and its
reason cites accrued ≥ required BGT (equal to the price at 0 % buffer),
but the decision's priority is 90 — `RULE_PRIORITIES.BGT_EQUALS_PRICE` —
not the 100 claimed by the spec and by the repository's own unit test. -/
theorem scenarioA_priority_is_90 :
    ((BGTEqualsCurrentPriceRule.evaluate ⟨0⟩ scenarioAContext).toOption.bind
        fun ev => ev.decision).map
        (fun d => (d.shouldYeet, d.reason, d.priority))
      = some (true, "BGT earnings (0.0000) >= required BGT (0.0000) [0% buffer]",
          RULE_PRIORITIES.BGT_EQUALS_PRICE) ∧
      RULE_PRIORITIES.BGT_EQUALS_PRICE = 90 ∧
      RULE_PRIORITIES.BGT_EQUALS_PRICE ≠ 100 := by
  refine ⟨?_, by decide, by decide⟩
  have hval : validateRuleContext scenarioAContext = Except.ok () := rfl
  have hfloor : ⌊(1 + (0 : ℚ) / 100) * 10000⌋ = (10000 : Int) := by norm_num
  simp only [BGTEqualsCurrentPriceRule.evaluate, hval, hfloor, scenarioAContext,
    sampleContext, BGTEqualsCurrentPriceRule.priority, BGTEqualsCurrentPriceRule.name]
  norm_num
  decide

end YeetBot
